import Mathlib

/-!
Verification of the NumList data-management component
(`src/numlist/manager.py`, class `NumberListManager`).

The manager stores unique positive integers in a single SQLite table

    CREATE TABLE IF NOT EXISTS numbers (
        number INTEGER PRIMARY KEY,
        added_at TIMESTAMP DEFAULT CURRENT_TIMESTAMP
    )

We embed the table as a list of rows (`Store`), each row an `Entry` with
the integer `number` and its `added_at` timestamp.  `CURRENT_TIMESTAMP` is
passed in explicitly as a `now : Nat` argument.  The SQLite layer can fail
(disk errors, etc.); where the Python code catches such failures
(`clear_all`) we pass the possibility in explicitly as a `storageFails`
flag, with the transaction rolled back (state unchanged) on failure.
-/

namespace NumList

/-- One row of the `numbers` table: the stored integer (primary key) and
its insertion timestamp (`added_at TIMESTAMP DEFAULT CURRENT_TIMESTAMP`). -/
structure Entry where
  number : Int
  added_at : Nat
deriving DecidableEq, Repr

/-- The `numbers` table.  Row order is the order of insertion; every query
that exposes contents sorts explicitly (`ORDER BY number`). -/
abbrev Store := List Entry

/-- The typed failures the manager can raise.  `invalidValue` embeds the
`ValueError("Number must be a positive integer")` raised by `add_number`. -/
inductive NumError where
  | invalidValue
deriving DecidableEq, Repr

/-- `has_number`: `SELECT 1 FROM numbers WHERE number = ?` followed by
`fetchone() is not None` — true exactly when some row matches. -/
def has_number (n : Int) (s : Store) : Bool :=
  s.any (fun e => e.number == n)

/-- `add_number`: raises `ValueError` when `number <= 0`; otherwise attempts
`INSERT INTO numbers (number) VALUES (?)`.  The primary-key constraint makes
the insert raise `sqlite3.IntegrityError` exactly when the value is already
present, which the code catches and turns into `return False`; a successful
insert appends a row stamped with the current time and returns `True`. -/
def add_number (now : Nat) (n : Int) (s : Store) : Except NumError (Bool × Store) :=
  if n ≤ 0 then
    Except.error NumError.invalidValue
  else if has_number n s then
    Except.ok (false, s)
  else
    Except.ok (true, s ++ [⟨n, now⟩])

/-- `remove_number`: `DELETE FROM numbers WHERE number = ?`, returning
`cursor.rowcount > 0`.  The rowcount is the number of rows matching the
WHERE clause; the surviving table keeps every non-matching row. -/
def remove_number (n : Int) (s : Store) : Bool × Store :=
  (decide (0 < s.countP (fun e => e.number == n)),
   s.filter (fun e => e.number != n))

/-- `clear_all`: `DELETE FROM numbers` inside `try/except Exception`.
On success it commits the empty table and returns `True`; on any storage
failure the exception is swallowed, the transaction is rolled back and it
returns `False`.  The function is total: it never propagates an error. -/
def clear_all (storageFails : Bool) (s : Store) : Bool × Store :=
  if storageFails then (false, s) else (true, [])

/-- `get_all_numbers`: `SELECT number FROM numbers ORDER BY number` —
the stored values in ascending order. -/
def get_all_numbers (s : Store) : List Int :=
  List.insertionSort (· ≤ ·) (s.map Entry.number)

/-- The result shape of `get_stats`: the dict with keys
`count`, `min`, `max`, `sum`, `average` (the last four `None` when empty). -/
structure Stats where
  count : Nat
  min? : Option Int
  max? : Option Int
  sum? : Option Int
  average? : Option Rat
deriving DecidableEq, Repr

/-- `get_stats`: `SELECT COUNT(*), MIN(number), MAX(number), SUM(number),
AVG(number) FROM numbers`.  When the count is 0 the code returns all other
fields as `None`; otherwise the SQL aggregates over the stored values, with
`AVG` the exact arithmetic mean (modelled as a rational). -/
def get_stats (s : Store) : Stats :=
  let vals := s.map Entry.number
  if vals.length = 0 then
    ⟨0, none, none, none, none⟩
  else
    ⟨vals.length, vals.min?, vals.max?, some vals.sum,
     some ((vals.sum : Rat) / (vals.length : Rat))⟩

/-- `is_empty`: `SELECT COUNT(*) FROM numbers` compared with 0. -/
def is_empty (s : Store) : Bool :=
  s.length == 0

/-- One mutating call on the manager, with its external inputs made
explicit: the clock reading for `add_number` and the storage-failure
oracle for `clear_all`. -/
inductive Op where
  | add (now : Nat) (n : Int)
  | remove (n : Int)
  | clear (storageFails : Bool)
deriving DecidableEq, Repr

/-- The state transition of one call.  A raised `ValueError` aborts the
call before any write, so the table is unchanged on the error branch. -/
def step (s : Store) : Op → Store
  | Op.add now n =>
    match add_number now n s with
    | Except.ok (_, s2) => s2
    | Except.error _ => s
  | Op.remove n => (remove_number n s).2
  | Op.clear f => (clear_all f s).2

/-- Running a sequence of mutating calls from the freshly created
(empty) table. -/
def run (ops : List Op) : Store :=
  ops.foldl step []

/-- The data-model invariant of the spec: every stored value is strictly
positive, and no two rows share a value. -/
def Inv (s : Store) : Prop :=
  (∀ e ∈ s, 0 < e.number) ∧ (s.map Entry.number).Nodup

end NumList

namespace NumList

/-- `has_number n s = false` exactly when no row holds `n`. -/
theorem has_number_eq_false {n : Int} {s : Store} :
    has_number n s = false ↔ ∀ e ∈ s, e.number ≠ n := by
  simp [has_number, List.any_eq_false]

/-- Every mutating call preserves the data-model invariant. -/
theorem inv_step {s : Store} (h : Inv s) (op : Op) : Inv (step s op) := by
  obtain ⟨hpos, hnd⟩ := h
  cases op with
  | add now n =>
    by_cases hle : n ≤ 0
    · simpa [step, add_number, hle] using ⟨hpos, hnd⟩
    · by_cases hmem : has_number n s = true
      · simpa [step, add_number, hle, hmem] using ⟨hpos, hnd⟩
      · have habs : ∀ e ∈ s, e.number ≠ n :=
          has_number_eq_false.mp (Bool.not_eq_true _ ▸ hmem)
        simp only [step, add_number, if_neg hle, Bool.not_eq_true] at *
        rw [if_neg (by simp [hmem])]
        constructor
        · intro e he
          rcases List.mem_append.mp he with h1 | h1
          · exact hpos e h1
          · simp only [List.mem_singleton] at h1
            subst h1
            exact lt_of_not_le hle
        · rw [List.map_append]
          simp only [List.map_cons, List.map_nil]
          rw [List.nodup_append]
          refine ⟨hnd, List.nodup_singleton n, ?_⟩
          intro a ha hb
          simp only [List.mem_singleton] at hb
          subst hb
          rcases List.mem_map.mp ha with ⟨e, he, hev⟩
          exact habs e he hev
  | remove n =>
    constructor
    · intro e he
      exact hpos e (List.mem_of_mem_filter he)
    · exact hnd.sublist ((List.filter_sublist s).map Entry.number)
  | clear f =>
    cases f with
    | true => exact ⟨hpos, hnd⟩
    | false => exact ⟨by simp [step, clear_all], by simp [step, clear_all]⟩

/-- Every state reachable from the fresh table satisfies the invariant. -/
theorem inv_run (ops : List Op) : Inv (run ops) := by
  have key : ∀ s, Inv s → Inv (ops.foldl step s) := by
    induction ops with
    | nil => exact fun s h => h
    | cons op rest ih => exact fun s h => ih _ (inv_step h op)
  exact key [] ⟨by simp, by simp⟩

/-- Rows are never mutated in place: after any call, a row that was present
either survives verbatim (value and timestamp) or its value is gone. -/
theorem step_frame (s : Store) (op : Op) (e : Entry) (he : e ∈ s) :
    e ∈ step s op ∨ has_number e.number (step s op) = false := by
  cases op with
  | add now n =>
    by_cases hle : n ≤ 0
    · left; simpa [step, add_number, hle] using he
    · by_cases hmem : has_number n s = true
      · left; simpa [step, add_number, hle, hmem] using he
      · left
        simp only [step, add_number, if_neg hle, Bool.not_eq_true] at *
        rw [if_neg (by simp [hmem])]
        exact List.mem_append_left _ he
  | remove n =>
    by_cases hv : e.number = n
    · right
      rw [has_number_eq_false]
      intro x hx
      have := (List.mem_filter.mp hx).2
      simp only [bne_iff_ne, ne_eq] at this
      rw [hv]
      exact this
    · left
      exact List.mem_filter.mpr ⟨he, by simp [hv]⟩
  | clear f =>
    cases f with
    | true => left; exact he
    | false => right; rfl

/-- On a non-empty table, `get_stats` reports the row count, an attained
minimum and maximum, the sum of the values, and a mean `a` with
`a * count = sum`. -/
theorem get_stats_nonempty :
    ∀ s : Store, s ≠ [] →
      ∃ m M : Int, ∃ a : Rat,
        get_stats s
          = ⟨s.length, some m, some M, some ((s.map Entry.number).sum), some a⟩ ∧
        m ∈ s.map Entry.number ∧ (∀ v ∈ s.map Entry.number, m ≤ v) ∧
        M ∈ s.map Entry.number ∧ (∀ v ∈ s.map Entry.number, v ≤ M) ∧
        a * (s.length : Rat) = ((s.map Entry.number).sum : Rat) := by
  intro s hs
  have hvals : s.map Entry.number ≠ [] := by
    simpa using hs
  have hlen : (s.map Entry.number).length ≠ 0 := by
    simpa [List.length_eq_zero] using hvals
  obtain ⟨m, hm⟩ : ∃ m, (s.map Entry.number).min? = some m := by
    cases h : s.map Entry.number with
    | nil => exact absurd h hvals
    | cons x t => exact ⟨_, List.min?_cons⟩
  obtain ⟨M, hM⟩ : ∃ M, (s.map Entry.number).max? = some M := by
    cases h : s.map Entry.number with
    | nil => exact absurd h hvals
    | cons x t => exact ⟨_, List.max?_cons⟩
  haveI : Std.Antisymm (fun (a b : Int) => a ≤ b) :=
    ⟨fun h1 h2 => le_antisymm h1 h2⟩
  have hmspec := (List.min?_eq_some_iff (fun a => le_refl a)
    (fun a b => min_choice a b) (fun a b c => le_min_iff)).mp hm
  have hMspec := (List.max?_eq_some_iff (fun a => le_refl a)
    (fun a b => max_choice a b) (fun a b c => max_le_iff)).mp hM
  refine ⟨m, M, ((s.map Entry.number).sum : Rat) / ((s.map Entry.number).length : Rat),
    ?_, hmspec.1, hmspec.2, hMspec.1, hMspec.2, ?_⟩
  · simp only [get_stats, if_neg hlen]
    rw [hm, hM]
    simp
  · rw [List.length_map] at hlen ⊢
    rw [div_mul_cancel₀]
    exact Nat.cast_ne_zero.mpr hlen

end NumList

namespace NumList

/-- C1: for every positive integer `n`, `add(n)` returns `true` when `n`
was not previously in the store and afterwards `contains(n)` is true; when
`n` is already present the single insert attempt hits the primary-key
constraint and `add(n)` returns `false`. -/
theorem add_number_insert_or_duplicate (s : Store) (now : Nat) (n : Int) (hn : 0 < n) :
    (has_number n s = false →
      add_number now n s = Except.ok (true, s ++ [⟨n, now⟩]) ∧
      has_number n (s ++ [⟨n, now⟩]) = true) ∧
    (has_number n s = true → add_number now n s = Except.ok (false, s)) := by
  constructor
  · intro h
    refine ⟨?_, ?_⟩
    · simp [add_number, h, not_le.mpr hn]
    · simp [has_number]
  · intro h
    simp [add_number, h, not_le.mpr hn]

/-- Witness for C1 at the store `[⟨1, 0⟩]` and the fresh value `2`. -/
theorem add_number_insert_witness :
    0 < (2 : Int) ∧ has_number 2 [(⟨1, 0⟩ : Entry)] = false ∧
      (add_number 7 2 [⟨1, 0⟩] = Except.ok (true, [⟨1, 0⟩, ⟨2, 7⟩]) ∧
        has_number 2 [(⟨1, 0⟩ : Entry), ⟨2, 7⟩] = true) :=
  ⟨by decide, by decide,
    (add_number_insert_or_duplicate [⟨1, 0⟩] 7 2 (by decide)).1 (by decide)⟩

/-- C2: for every `n ≤ 0`, `add(n)` raises `ValueError` (the `InvalidValue`
failure) before touching the database, so the store is unchanged. -/
theorem add_number_nonpositive (s : Store) (now : Nat) (n : Int) (hn : n ≤ 0) :
    add_number now n s = Except.error NumError.invalidValue ∧
      step s (Op.add now n) = s := by
  refine ⟨by simp [add_number, hn], ?_⟩
  simp [step, add_number, hn]

/-- Witness for C2 at `n = -3` on a one-row store. -/
theorem add_number_nonpositive_witness :
    (-3 : Int) ≤ 0 ∧
      (add_number 0 (-3) [(⟨5, 1⟩ : Entry)] = Except.error NumError.invalidValue ∧
        step [(⟨5, 1⟩ : Entry)] (Op.add 0 (-3)) = [⟨5, 1⟩]) :=
  ⟨by decide, add_number_nonpositive [⟨5, 1⟩] 0 (-3) (by decide)⟩

/-- C3: `remove(n)` never raises (it is a total function): on an absent
value it returns `false` with the store unchanged; on a present value it
returns `true` and afterwards `contains(n)` is false. -/
theorem remove_number_total_spec (s : Store) (n : Int) :
    (has_number n s = false → remove_number n s = (false, s)) ∧
    (has_number n s = true →
      (remove_number n s).1 = true ∧
        has_number n (remove_number n s).2 = false) := by
  constructor
  · intro h
    have hall : ∀ e ∈ s, e.number ≠ n := has_number_eq_false.mp h
    have hfil : s.filter (fun e => e.number != n) = s :=
      List.filter_eq_self.mpr (fun a ha => by simp [hall a ha])
    have hcnt : s.countP (fun e => e.number == n) = 0 :=
      List.countP_eq_zero.mpr (fun a ha => by simp [hall a ha])
    simp [remove_number, hfil, hcnt]
  · intro h
    have hex : ∃ e ∈ s, e.number = n := by
      simpa [has_number, List.any_eq_true] using h
    constructor
    · rcases hex with ⟨e, he, hev⟩
      have : 0 < s.countP (fun e => e.number == n) :=
        List.countP_pos_iff.mpr ⟨e, he, by simp [hev]⟩
      simp [remove_number, this]
    · rw [has_number_eq_false]
      intro x hx
      have := (List.mem_filter.mp hx).2
      simpa using this

/-- Witness for C3 in the present case, removing `1` from `[⟨1, 0⟩]`. -/
theorem remove_number_present_witness :
    has_number 1 [(⟨1, 0⟩ : Entry)] = true ∧
      ((remove_number 1 [(⟨1, 0⟩ : Entry)]).1 = true ∧
        has_number 1 (remove_number 1 [(⟨1, 0⟩ : Entry)]).2 = false) :=
  ⟨by decide, (remove_number_total_spec [⟨1, 0⟩] 1).2 (by decide)⟩

/-- C4: after any finite sequence of add/remove/clear operations from the
empty store, `list_all()` is strictly ascending — ascending numeric order
with no duplicates. -/
theorem get_all_numbers_strictly_ascending (ops : List Op) :
    List.Sorted (· < ·) (get_all_numbers (run ops)) := by
  have hnd : (List.map Entry.number (run ops)).Nodup := (inv_run ops).2
  have hsorted : List.Sorted (· ≤ ·) (get_all_numbers (run ops)) :=
    List.sorted_insertionSort _ _
  have hperm := List.perm_insertionSort (α := Int) (· ≤ ·) (List.map Entry.number (run ops))
  exact hsorted.lt_of_le (hperm.nodup_iff.mpr hnd)

/-- C5: `stats()` on the empty store has count 0 and all other fields
absent; on a non-empty store it reports the count, attained minimum and
maximum, sum, and arithmetic mean; after adding 3, 1, 4, 1, 5 to the empty
store it reports count 4, min 1, max 5, sum 13, average 13/4 = 3.25. -/
theorem get_stats_values :
    get_stats [] = ⟨0, none, none, none, none⟩ ∧
      get_stats (run [Op.add 0 3, Op.add 1 1, Op.add 2 4, Op.add 3 1, Op.add 4 5])
        = ⟨4, some 1, some 5, some 13, some ((13 : Rat) / 4)⟩ ∧
      ((13 : Rat) / 4 = 3.25) ∧
      (∀ s : Store, s ≠ [] →
        ∃ m M : Int, ∃ a : Rat,
          get_stats s
            = ⟨s.length, some m, some M, some ((s.map Entry.number).sum), some a⟩ ∧
          m ∈ s.map Entry.number ∧ (∀ v ∈ s.map Entry.number, m ≤ v) ∧
          M ∈ s.map Entry.number ∧ (∀ v ∈ s.map Entry.number, v ≤ M) ∧
          a * (s.length : Rat) = ((s.map Entry.number).sum : Rat)) :=
  ⟨rfl, rfl, by norm_num, get_stats_nonempty⟩

/-- Witness for C5, applying the non-empty clause at the store `[⟨2, 9⟩]`. -/
theorem get_stats_values_witness :
    ([(⟨2, 9⟩ : Entry)] : Store) ≠ [] ∧
      (∃ m M : Int, ∃ a : Rat,
        get_stats [(⟨2, 9⟩ : Entry)]
          = ⟨1, some m, some M, some 2, some a⟩ ∧
        m ∈ [(2 : Int)] ∧ (∀ v ∈ [(2 : Int)], m ≤ v) ∧
        M ∈ [(2 : Int)] ∧ (∀ v ∈ [(2 : Int)], v ≤ M) ∧
        a * 1 = 2) :=
  ⟨by decide, get_stats_values.2.2.2 [⟨2, 9⟩] (by decide)⟩

/-- C6: every reachable store state holds only strictly positive values,
with no two rows sharing a value. -/
theorem reachable_positive_nodup (ops : List Op) :
    (∀ e ∈ run ops, 0 < e.number) ∧
      (List.map Entry.number (run ops)).Nodup :=
  inv_run ops

/-- Witness for C6 at the run `[add 0 3]` and its row `⟨3, 0⟩`. -/
theorem reachable_positive_witness :
    (⟨3, 0⟩ : Entry) ∈ run [Op.add 0 3] ∧ 0 < (Entry.number ⟨3, 0⟩) :=
  ⟨by decide, (reachable_positive_nodup [Op.add 0 3]).1 ⟨3, 0⟩ (by decide)⟩

/-- C7: re-adding a present positive value returns `false` and leaves the
store — every row and its `added_at` — unchanged; more generally no call
ever rewrites a surviving row's timestamp: a row present before a call is
either still present verbatim afterwards or its value is gone entirely. -/
theorem add_number_duplicate_frame (s : Store) (now : Nat) (n : Int)
    (hn : 0 < n) (hp : has_number n s = true) :
    add_number now n s = Except.ok (false, s) ∧
      ∀ op : Op, ∀ e ∈ s, e ∈ step s op ∨ has_number e.number (step s op) = false :=
  ⟨by simp [add_number, hp, not_le.mpr hn],
    fun op e he => step_frame s op e he⟩

/-- Witness for C7, re-adding `2` to the store `[⟨2, 0⟩]`. -/
theorem add_number_duplicate_frame_witness :
    0 < (2 : Int) ∧ has_number 2 [(⟨2, 0⟩ : Entry)] = true ∧
      add_number 3 2 [(⟨2, 0⟩ : Entry)] = Except.ok (false, [⟨2, 0⟩]) :=
  ⟨by decide, by decide,
    (add_number_duplicate_frame [⟨2, 0⟩] 3 2 (by decide) (by decide)).1⟩

/-- C8: whenever `clear()` reports success, `is_empty()` immediately after
returns true, regardless of the prior contents. -/
theorem clear_then_is_empty (s : Store) (f : Bool)
    (h : (clear_all f s).1 = true) :
    is_empty (clear_all f s).2 = true := by
  cases f with
  | true => simp [clear_all] at h
  | false => simp [clear_all, is_empty]

/-- Witness for C8, clearing the one-row store `[⟨1, 0⟩]`. -/
theorem clear_then_is_empty_witness :
    (clear_all false [(⟨1, 0⟩ : Entry)]).1 = true ∧
      is_empty (clear_all false [(⟨1, 0⟩ : Entry)]).2 = true :=
  ⟨by decide, clear_then_is_empty [⟨1, 0⟩] false (by decide)⟩

/-- C9: `clear()` is a total function — it never propagates an error: on
an underlying storage failure it returns bare `false` with the table left
as it was, and on success it returns `true` with the table emptied. -/
theorem clear_all_never_raises (s : Store) :
    clear_all true s = (false, s) ∧ clear_all false s = (true, []) :=
  ⟨rfl, rfl⟩

/-- C10: the three emptiness views agree in every store state:
`is_empty()` is true exactly when `stats()` reports count 0, exactly when
`list_all()` is the empty list. -/
theorem emptiness_views_agree (s : Store) :
    (is_empty s = true ↔ (get_stats s).count = 0) ∧
      (is_empty s = true ↔ get_all_numbers s = []) := by
  have hse : is_empty s = true ↔ s = [] := by
    cases s <;> simp [is_empty]
  constructor
  · rw [hse]
    constructor
    · intro h; subst h; rfl
    · intro h
      cases s with
      | nil => rfl
      | cons e t => simp [get_stats] at h
  · rw [hse]
    constructor
    · intro h; subst h; rfl
    · intro h
      have hperm := List.perm_insertionSort (α := Int) (· ≤ ·) (List.map Entry.number s)
      rw [get_all_numbers] at h
      rw [h] at hperm
      have : List.map Entry.number s = [] := hperm.symm.eq_nil
      exact List.map_eq_nil_iff.mp this

/-- Witness for C10 at the empty store. -/
theorem emptiness_views_agree_witness :
    (is_empty [] = true ↔ (get_stats []).count = 0) ∧
      (is_empty [] = true ↔ get_all_numbers [] = []) :=
  emptiness_views_agree []

end NumList
